import Mathlib

/-!
Verification of the elemental kernel emitter
(`xla/backends/cpu/testlib/elemental_kernel_emitter.cc`).

The development shallowly embeds the loop-emission decision logic and the
parallel-partition bounds construction.  Pure C++ helpers become Lean
functions; the LLVM module mutated by the emitter becomes an explicit
`Module` value threaded through the emission functions.  Machine integers
are modelled as `Nat` (all quantities involved — dimension sizes, partition
counts, bounds — are non-negative and no overflow is reachable for the
claims considered).

Components of the repository that are referenced by the emitter but whose
sources are not part of the analysed fragment (`ShapePartitionIterator`,
`ShapePartitionAssigner`, the `llvm_ir` loop emitters, the `BackendConfig`
protocol buffer) are modelled from the specification; their doc comments
say so explicitly.
-/

namespace ElementalKernelEmitter

/-- Opcode tags of IR nodes (the subset of `HloOpcode` relevant here,
plus representative element-wise opcodes). -/
inductive HloOpcode where
  | kAdd
  | kConvert
  | kCopy
  | kExp
  | kFusion
  | kMultiply
  | kReduce
  | kReduceWindow
  | kSubtract
  deriving DecidableEq, Repr

/-- Printable opcode name, as `HloOpcodeString` returns it. -/
def HloOpcodeString : HloOpcode → String
  | .kAdd => "add"
  | .kConvert => "convert"
  | .kCopy => "copy"
  | .kExp => "exponential"
  | .kFusion => "fusion"
  | .kMultiply => "multiply"
  | .kReduce => "reduce"
  | .kReduceWindow => "reduce-window"
  | .kSubtract => "subtract"

/-- Modelled from the spec: the backend-configuration message attached to a
node (`BackendConfig` proto, not under the analysed sources).  Only the
outer-dimension partition-count list is relevant here. -/
structure BackendConfig where
  outer_dimension_partitions : List Nat
  deriving DecidableEq, Repr

/-- An IR node: opcode, static output shape (dimension sizes), name, and the
optional backend configuration.  `backendConfig = none` models both an
absent and an unreadable configuration (the C++ `backend_config<...>()`
call returning a non-ok status). -/
structure HloInstruction where
  opcode : HloOpcode
  shape : List Nat
  name : String
  backendConfig : Option BackendConfig
  deriving DecidableEq, Repr

/-- Parallel partitioning directive: per outer dimension, the number of
contiguous partitions (`struct ParallelConfig`). -/
structure ParallelConfig where
  outer_dimension_partitions : List Nat
  deriving DecidableEq, Repr

/-- Translation of `GetParallelConfig`: return `none` when the backend
config is absent/unreadable or its partition list is empty, otherwise copy
the list verbatim. -/
def GetParallelConfig (instr : HloInstruction) : Option ParallelConfig :=
  match instr.backendConfig with
  | none => none
  | some backend_config =>
    if backend_config.outer_dimension_partitions.isEmpty then none
    else some { outer_dimension_partitions := backend_config.outer_dimension_partitions }

/-- Translation of `ShapePartitionAssigner::GetTotalPartitionCount` (per the
spec: total partition count is the product of the per-dimension counts). -/
def GetTotalPartitionCount (counts : List Nat) : Nat := counts.prod

/-- Modelled from the spec: the per-dimension chunk length used by the
`ShapePartitionIterator`-style near-equal split (the source of
`ShapePartitionIterator` is outside the analysed fragment).  A dimension of
size `s` split `c` ways uses chunks of length `ceil(s / c)`. -/
def chunkSize (s c : Nat) : Nat := (s + c - 1) / c

/-- Modelled from the spec: half-open bound `[lower, upper)` of the `j`-th
chunk of a dimension of size `s` split `c` ways, clamped to the dimension
size so that the chunks tile `[0, s)` exactly. -/
def dimBound (s c j : Nat) : Nat × Nat :=
  (min (j * chunkSize s c) s, min ((j + 1) * chunkSize s c) s)

/-- Modelled from the spec: `ShapePartitionIterator::GetPartition`.  Given
the shape, the per-dimension partition counts and a partition id, return
for each parallel dimension the pair `(lower, size)` of that partition,
enumerating partitions lexicographically with the outer dimension varying
slowest (mixed-radix decomposition of the id). -/
def GetPartition : List Nat → List Nat → Nat → List (Nat × Nat)
  | s :: ss, c :: cs, i =>
    let stride := cs.prod
    let b := dimBound s c (i / stride)
    (b.1, b.2 - b.1) :: GetPartition ss cs (i % stride)
  | _, _, _ => []

/-- One row of the constant bounds table: for partition `i`, the
`(lower, lower + size)` pair per parallel dimension, exactly as the loop at
lines 110–118 of the emitter builds each `ConstantArray` row. -/
def tableRow (shape counts : List Nat) (i : Nat) : List (Nat × Nat) :=
  (GetPartition shape counts i).map fun p => (p.1, p.1 + p.2)

/-- The full constant partition-bounds table
`[#partitions x [#outer_dimensions x [lower_bound, upper_bound]]]`. -/
def partitionBoundsTable (shape counts : List Nat) : List (List (Nat × Nat)) :=
  (List.range (GetTotalPartitionCount counts)).map (tableRow shape counts)

/-- The lookup the emitted GEP/load code performs: index the constant table
with the runtime partition id `t` and the dimension index `d`. -/
def boundsTableLookup (table : List (List (Nat × Nat))) (t d : Nat) : Nat × Nat :=
  (table.getD t []).getD d (0, 0)

/-- A named global data object registered in the emitted module.
`isConstant` mirrors the `/*isConstant=*/true` argument. -/
structure EmittedGlobal where
  name : String
  isConstant : Bool
  initializer : List (List (Nat × Nat))
  deriving DecidableEq, Repr

/-- One emitted loop nest.  A partitioned loop stores the bounds table whose
row for the runtime partition id provides the per-dimension bounds. -/
inductive EmittedLoop where
  | multiResultLoop (name : String)
  | partitionedLoop (name : String) (bounds : List (List (Nat × Nat)))
  | wholeShapeLoop (name : String)
  deriving DecidableEq, Repr

/-- The generated code artifact: registered globals and emitted loop nests. -/
structure Module where
  globals : List EmittedGlobal
  loops : List EmittedLoop
  deriving DecidableEq, Repr

/-- Translation of `EmitParallelPartitionBounds`: build the constant bounds
table, register it as a single read-only global named
`<name>_parallel_bounds`, and return the bounds data the subsequent loads
address (modelled as the table itself; `boundsTableLookup` models the
per-dimension load). -/
def EmitParallelPartitionBounds (m : Module) (parallel_config : ParallelConfig)
    (shape : List Nat) (name : String) : Module × List (List (Nat × Nat)) :=
  let table := partitionBoundsTable shape parallel_config.outer_dimension_partitions
  ({ m with
      globals := m.globals ++
        [{ name := name ++ "_parallel_bounds", isConstant := true, initializer := table }] },
   table)

/-- The structured error returned by `Internal(...)`; the message carries
the opcode identity. -/
structure InternalError where
  message : String
  deriving DecidableEq, Repr

/-- The one locally-raised error of the component. -/
def multiOutputUnsupportedError (opcode : HloOpcode) : InternalError :=
  { message := "Multi-output host kernels are not supported for "
      ++ HloOpcodeString opcode ++ " instruction" }

/-- Translation of `ElementalKernelEmitter::EmitElementalLoops`.
`numResults` is `kernel_prototype.results.size()`.  The module is threaded
explicitly; on the error path it is returned unchanged (nothing had been
emitted before the check).  The returned `Nat` is the `x` extent of the
`se::ThreadDim` (the default `se::ThreadDim()` is 1). -/
def EmitElementalLoops (instr : HloInstruction) (numResults : Nat) (m : Module) :
    Module × Except InternalError Nat :=
  let multiple_results := decide (1 < numResults)
  let support_multiple_results :=
    instr.opcode == HloOpcode.kFusion || instr.opcode == HloOpcode.kReduce ||
      instr.opcode == HloOpcode.kReduceWindow
  let parallel_config := GetParallelConfig instr
  if multiple_results && !support_multiple_results then
    (m, .error (multiOutputUnsupportedError instr.opcode))
  else if multiple_results then
    ({ m with loops := m.loops ++ [.multiResultLoop instr.name] }, .ok 1)
  else
    match parallel_config with
    | some pc =>
      let emitted := EmitParallelPartitionBounds m pc instr.shape instr.name
      ({ emitted.1 with loops := emitted.1.loops ++ [.partitionedLoop instr.name emitted.2] },
       .ok (GetTotalPartitionCount pc.outer_dimension_partitions))
    | none =>
      ({ m with loops := m.loops ++ [.wholeShapeLoop instr.name] }, .ok 1)

/-- Placeholder for a buffer allocation entry (contents irrelevant here:
the emitter never constructs any). -/
structure BufferAllocation where
  index : Nat
  deriving DecidableEq, Repr

/-- Placeholder for a buffer-use entry (contents irrelevant here). -/
structure BufferUse where
  allocationIndex : Nat
  deriving DecidableEq, Repr

/-- The packaged kernel specification (`LlvmIrKernelSpec`). -/
structure KernelSpec where
  thread_dims : Nat
  buffer_allocations : List BufferAllocation
  buffer_uses : List BufferUse
  moduleArtifact : Module
  entryName : String
  deriving DecidableEq, Repr

/-- Translation of `ElementalKernelEmitter::EmitKernelSpec` restricted to
the analysed core: create a fresh module, emit the elemental loops, and
package the result with unconditionally empty buffer-allocation and
buffer-use lists (the C++ constructs both vectors empty and never fills
them). -/
def EmitKernelSpec (instr : HloInstruction) (numResults : Nat) :
    Except InternalError KernelSpec :=
  let m0 : Module := { globals := [], loops := [] }
  match EmitElementalLoops instr numResults m0 with
  | (m1, .ok thread_dims) =>
    .ok { thread_dims := thread_dims, buffer_allocations := [], buffer_uses := [],
          moduleArtifact := m1, entryName := instr.name ++ "_kernel" }
  | (_, .error e) => .error e

/-- Modelled from the spec: the list of index vectors a loop nest over the
given half-open per-dimension ranges visits (row-major order). -/
def rangeIndices : List (Nat × Nat) → List (List Nat)
  | [] => [[]]
  | (lo, up) :: rest =>
    (List.range' lo (up - lo)).flatMap fun i => (rangeIndices rest).map (i :: ·)

/-- Modelled from the spec: the iteration space of an emitted loop nest for
a node of the given shape, as a function of the runtime partition id.  The
whole-shape and multi-result loops (`llvm_ir::LoopEmitter`, outside the
analysed sources) visit every coordinate of the shape; the partitioned loop
(`ParallelLoopEmitter`) takes the parallel dimensions' bounds from the
table row selected by the runtime partition id and iterates the remaining
dimensions in full. -/
def loopIterationIndices (shape : List Nat) : EmittedLoop → Nat → List (List Nat)
  | .wholeShapeLoop _, _ => rangeIndices (shape.map fun s => (0, s))
  | .multiResultLoop _, _ => rangeIndices (shape.map fun s => (0, s))
  | .partitionedLoop _ table, t =>
    let row := table.getD t []
    rangeIndices (row ++ (shape.drop row.length).map fun s => (0, s))

/-- Whether an index vector lies pointwise inside a list of half-open
bounds (and has the same length). -/
def inBounds : List Nat → List (Nat × Nat) → Bool
  | [], [] => true
  | x :: xs, (lo, up) :: bs => decide (lo ≤ x) && decide (x < up) && inBounds xs bs
  | _, _ => false

/-- Whether an index vector is a valid coordinate of the given shape. -/
def validIndex : List Nat → List Nat → Bool
  | [], [] => true
  | x :: xs, s :: ss => decide (x < s) && validIndex xs ss
  | _, _ => false

/-- Whether an index vector is a valid point of the parallel-dimension
index space: one coordinate per partition-count entry, each strictly below
the corresponding dimension size. -/
def validPoint : List Nat → List Nat → List Nat → Bool
  | [], _, [] => true
  | x :: xs, s :: ss, _ :: cs => decide (x < s) && validPoint xs ss cs
  | _, _, _ => false

/-- The unique partition id whose bounds contain a given point of the
parallel index space (mixed-radix composition of the per-dimension chunk
indices). -/
def findPartition : List Nat → List Nat → List Nat → Nat
  | x :: xs, s :: ss, c :: cs => (x / chunkSize s c) * cs.prod + findPartition xs ss cs
  | _, _, _ => 0

/-! Arithmetic facts about the near-equal chunk split. -/

theorem chunkSize_pos (s c : Nat) (hs : 0 < s) (hc : 0 < c) : 0 < chunkSize s c := by
  unfold chunkSize
  exact (Nat.le_div_iff_mul_le hc).mpr (by omega)

theorem le_mul_chunkSize (s c : Nat) (hc : 0 < c) : s ≤ c * chunkSize s c := by
  have h := Nat.div_add_mod (s + c - 1) c
  have h2 : (s + c - 1) % c < c := Nat.mod_lt _ hc
  unfold chunkSize
  omega

theorem dimBound_fst_le_snd (s c j : Nat) : (dimBound s c j).1 ≤ (dimBound s c j).2 := by
  unfold dimBound
  have : j * chunkSize s c ≤ (j + 1) * chunkSize s c :=
    Nat.mul_le_mul_right _ (Nat.le_succ j)
  exact min_le_min this (le_refl s)

theorem lt_succ_div_mul (x q : Nat) (hq : 0 < q) : x < (x / q + 1) * q := by
  have hdm := Nat.div_add_mod x q
  have hm : x % q < q := Nat.mod_lt _ hq
  rw [Nat.succ_mul]
  rw [Nat.mul_comm q (x / q)] at hdm
  omega

theorem mem_dimBound_iff (s c j x : Nat) (hc : 0 < c) (hx : x < s) :
    ((dimBound s c j).1 ≤ x ∧ x < (dimBound s c j).2) ↔ j = x / chunkSize s c := by
  have hq : 0 < chunkSize s c := chunkSize_pos s c (by omega) hc
  unfold dimBound
  constructor
  · rintro ⟨h1, h2⟩
    have hj1 : j * chunkSize s c ≤ x := by
      rcases Nat.le_total (j * chunkSize s c) s with h | h
      · rwa [Nat.min_eq_left h] at h1
      · rw [Nat.min_eq_right h] at h1; omega
    have hj2 : x < (j + 1) * chunkSize s c := by
      rcases Nat.le_total ((j + 1) * chunkSize s c) s with h | h
      · rwa [Nat.min_eq_left h] at h2
      · omega
    exact (Nat.div_eq_of_lt_le hj1 hj2).symm
  · rintro rfl
    refine ⟨le_trans (Nat.min_le_left _ _) (Nat.div_mul_le_self x _), ?_⟩
    exact Nat.lt_min.mpr ⟨lt_succ_div_mul x _ hq, hx⟩

theorem div_chunkSize_lt (s c x : Nat) (hc : 0 < c) (hx : x < s) :
    x / chunkSize s c < c := by
  have hq : 0 < chunkSize s c := chunkSize_pos s c (by omega) hc
  exact (Nat.div_lt_iff_lt_mul hq).mpr (lt_of_lt_of_le hx (le_mul_chunkSize s c hc))

/-! Structure of `GetPartition`, the table rows, and the point predicates. -/

theorem GetPartition_counts_nil (shape : List Nat) (i : Nat) :
    GetPartition shape [] i = [] := by
  cases shape <;> rfl

theorem tableRow_counts_nil (shape : List Nat) (i : Nat) :
    tableRow shape [] i = [] := by
  unfold tableRow
  rw [GetPartition_counts_nil]
  rfl

theorem tableRow_cons (s c : Nat) (ss cs : List Nat) (i : Nat) :
    tableRow (s :: ss) (c :: cs) i =
      dimBound s c (i / cs.prod) :: tableRow ss cs (i % cs.prod) := by
  have h := dimBound_fst_le_snd s c (i / cs.prod)
  simp only [tableRow, GetPartition, List.map_cons]
  congr 1
  rw [Nat.add_sub_cancel' h]

theorem validPoint_counts_nil (x shape : List Nat)
    (h : validPoint x shape [] = true) : x = [] := by
  cases x with
  | nil => rfl
  | cons a as => cases shape <;> simp [validPoint] at h

theorem validPoint_cons (x shape : List Nat) (c : Nat) (cs : List Nat)
    (h : validPoint x shape (c :: cs) = true) :
    ∃ xi xs s ss, x = xi :: xs ∧ shape = s :: ss ∧ xi < s ∧
      validPoint xs ss cs = true := by
  cases x with
  | nil => cases shape <;> simp [validPoint] at h
  | cons xi xs =>
    cases shape with
    | nil => simp [validPoint] at h
    | cons s ss =>
      simp only [validPoint, Bool.and_eq_true, decide_eq_true_eq] at h
      exact ⟨xi, xs, s, ss, rfl, rfl, h.1, h.2⟩

theorem findPartition_lt (x shape counts : List Nat) (hpos : ∀ c ∈ counts, 0 < c)
    (hx : validPoint x shape counts = true) :
    findPartition x shape counts < GetTotalPartitionCount counts := by
  induction counts generalizing x shape with
  | nil =>
    have hx0 : x = [] := validPoint_counts_nil x shape hx
    subst hx0
    cases shape <;> simp [findPartition, GetTotalPartitionCount]
  | cons c cs ih =>
    obtain ⟨xi, xs, s, ss, rfl, rfl, hxi, hrest⟩ := validPoint_cons _ _ _ _ hx
    have hc : 0 < c := hpos c (by simp)
    have hrec := ih xs ss (fun d hd => hpos d (by simp [hd])) hrest
    have hj : xi / chunkSize s c < c := div_chunkSize_lt s c xi hc hxi
    simp only [findPartition, GetTotalPartitionCount, List.prod_cons] at hrec ⊢
    calc (xi / chunkSize s c) * cs.prod + findPartition xs ss cs
        < (xi / chunkSize s c) * cs.prod + cs.prod := by omega
      _ = (xi / chunkSize s c + 1) * cs.prod := by rw [Nat.succ_mul]
      _ ≤ c * cs.prod := Nat.mul_le_mul_right _ (by omega)

theorem inBounds_tableRow_iff (counts : List Nat) : ∀ shape x : List Nat,
    (∀ c ∈ counts, 0 < c) → validPoint x shape counts = true →
    ∀ i, i < GetTotalPartitionCount counts →
    (inBounds x (tableRow shape counts i) = true ↔
      i = findPartition x shape counts) := by
  induction counts with
  | nil =>
    intro shape x _ hx i hi
    have hx0 : x = [] := validPoint_counts_nil x shape hx
    subst hx0
    rw [tableRow_counts_nil]
    simp only [GetTotalPartitionCount, List.prod_nil] at hi
    cases shape <;> simp [inBounds, findPartition] <;> omega
  | cons c cs ih =>
    intro shape x hpos hx i hi
    obtain ⟨xi, xs, s, ss, rfl, rfl, hxi, hrest⟩ := validPoint_cons _ _ _ _ hx
    have hc : 0 < c := hpos c (by simp)
    have hpos' : ∀ d ∈ cs, 0 < d := fun d hd => hpos d (by simp [hd])
    have hstride : 0 < cs.prod := List.prod_pos hpos'
    have hrec := ih ss xs hpos' hrest (i % cs.prod) (Nat.mod_lt _ hstride)
    have hfp : findPartition xs ss cs < cs.prod := by
      have := findPartition_lt xs ss cs hpos' hrest
      simpa [GetTotalPartitionCount] using this
    rw [tableRow_cons]
    simp only [inBounds, Bool.and_eq_true, decide_eq_true_eq]
    constructor
    · rintro ⟨⟨h1, h2⟩, h3⟩
      have hj : i / cs.prod = xi / chunkSize s c :=
        (mem_dimBound_iff s c (i / cs.prod) xi hc hxi).mp ⟨h1, h2⟩
      have hr : i % cs.prod = findPartition xs ss cs := hrec.mp h3
      have hdm := Nat.div_add_mod i cs.prod
      simp only [findPartition]
      rw [← hj, ← hr, Nat.mul_comm]
      omega
    · intro hEq
      simp only [findPartition] at hEq
      have hdiv : i / cs.prod = xi / chunkSize s c := by
        rw [hEq, Nat.mul_comm _ cs.prod, Nat.mul_add_div hstride,
          Nat.div_eq_of_lt hfp, Nat.add_zero]
      have hmod : i % cs.prod = findPartition xs ss cs := by
        rw [hEq, Nat.mul_comm _ cs.prod, Nat.mul_add_mod, Nat.mod_eq_of_lt hfp]
      refine ⟨?_, hrec.mpr hmod⟩
      rw [hdiv]
      exact (mem_dimBound_iff s c (xi / chunkSize s c) xi hc hxi).mpr rfl

theorem countP_range_eq (n t : Nat) (h : t < n) :
    ((List.range n).countP fun i => decide (i = t)) = 1 := by
  induction n with
  | zero => omega
  | succ m ih =>
    rw [List.range_succ, List.countP_append]
    by_cases hm : t = m
    · subst hm
      have h0 : ((List.range t).countP fun i => decide (i = t)) = 0 :=
        List.countP_eq_zero.mpr (by intro a ha; simp only [List.mem_range] at ha; simp; omega)
      have h1 : (List.countP (fun i => decide (i = t)) [t]) = 1 := by simp
      omega
    · have hlt : t < m := by omega
      have h0 : (List.countP (fun i => decide (i = t)) [m]) = 0 :=
        List.countP_eq_zero.mpr (by intro a ha; simp only [List.mem_singleton] at ha; simp; omega)
      rw [ih hlt, h0]

/-! Counting lemmas for the loop iteration spaces. -/

theorem countP_flatMap_cons (js : List Nat) (hnd : js.Nodup) (i : Nat) (is : List Nat)
    (L : List (List Nat)) :
    ((js.flatMap fun j => L.map (j :: ·)).countP fun r => decide (r = i :: is)) =
      if i ∈ js then (L.countP fun r => decide (r = is)) else 0 := by
  induction js with
  | nil => simp
  | cons a js ih =>
    simp only [List.flatMap_cons, List.countP_append]
    rw [List.nodup_cons] at hnd
    rw [List.countP_map]
    by_cases hia : i = a
    · subst hia
      have hmap : (L.countP ((fun r => decide (r = i :: is)) ∘ (i :: ·))) =
          (L.countP fun r => decide (r = is)) := by
        apply List.countP_congr
        intro t _
        simp
      rw [hmap, ih hnd.2, if_neg hnd.1, if_pos (List.mem_cons_self i js)]
      omega
    · have hmap : (L.countP ((fun r => decide (r = i :: is)) ∘ (a :: ·))) = 0 := by
        apply List.countP_eq_zero.mpr
        intro t _
        simp [Ne.symm hia]
      rw [hmap, ih hnd.2]
      by_cases him : i ∈ js
      · rw [if_pos him, if_pos (List.mem_cons_of_mem a him)]
        omega
      · rw [if_neg him, if_neg (by simp [hia, him])]

theorem countP_rangeIndices (bounds : List (Nat × Nat)) : ∀ idx : List Nat,
    inBounds idx bounds = true →
    ((rangeIndices bounds).countP fun r => decide (r = idx)) = 1 := by
  induction bounds with
  | nil =>
    intro idx h
    cases idx with
    | nil => simp [rangeIndices]
    | cons _ _ => simp [inBounds] at h
  | cons b bs ih =>
    obtain ⟨lo, up⟩ := b
    intro idx h
    cases idx with
    | nil => simp [inBounds] at h
    | cons i is =>
      simp only [inBounds, Bool.and_eq_true, decide_eq_true_eq] at h
      obtain ⟨⟨h1, h2⟩, h3⟩ := h
      simp only [rangeIndices]
      rw [countP_flatMap_cons _ (List.nodup_range' _ _) i is _]
      rw [if_pos (by rw [List.mem_range'_1]; omega)]
      exact ih is h3

theorem validIndex_eq_inBounds_full (idx shape : List Nat) :
    validIndex idx shape = inBounds idx (shape.map fun s => (0, s)) := by
  induction idx generalizing shape with
  | nil => cases shape <;> simp [validIndex, inBounds]
  | cons i is ih =>
    cases shape with
    | nil => simp [validIndex, inBounds]
    | cons s ss => simp [validIndex, inBounds, ih ss]

theorem GetPartition_length (shape counts : List Nat) (i : Nat)
    (hlen : counts.length ≤ shape.length) :
    (GetPartition shape counts i).length = counts.length := by
  induction counts generalizing shape i with
  | nil => rw [GetPartition_counts_nil]; rfl
  | cons c cs ih =>
    cases shape with
    | nil => simp at hlen
    | cons s ss =>
      simp only [GetPartition, List.length_cons]
      rw [ih ss _ (by simpa using hlen)]

/-! Claim theorems. -/

/-- C1: For every node with more than one output buffer whose opcode is in the
multi-output-capable set (Fusion, Reduce, ReduceWindow), emission uses the
MultiResultLoop strategy and returns ThreadDim = 1, and any present
ParallelConfig directive is ignored: no partition bounds table is built, no
global is registered, and the result equals emission with the directive
removed. -/
theorem multi_result_emission_ignores_partitioning (instr : HloInstruction)
    (numResults : Nat) (m : Module) (hres : 1 < numResults)
    (hop : instr.opcode = HloOpcode.kFusion ∨ instr.opcode = HloOpcode.kReduce ∨
      instr.opcode = HloOpcode.kReduceWindow) :
    EmitElementalLoops instr numResults m =
      ({ m with loops := m.loops ++ [EmittedLoop.multiResultLoop instr.name] },
        Except.ok 1) ∧
    (EmitElementalLoops instr numResults m).1.globals = m.globals ∧
    EmitElementalLoops instr numResults m =
      EmitElementalLoops { instr with backendConfig := none } numResults m := by
  have hsup : (instr.opcode == HloOpcode.kFusion || instr.opcode == HloOpcode.kReduce ||
      instr.opcode == HloOpcode.kReduceWindow) = true := by
    rcases hop with h | h | h <;> rw [h] <;> rfl
  have hmain : EmitElementalLoops instr numResults m =
      ({ m with loops := m.loops ++ [EmittedLoop.multiResultLoop instr.name] },
        Except.ok 1) := by
    simp [EmitElementalLoops, hsup, hres]
  have hmaskless : EmitElementalLoops { instr with backendConfig := none } numResults m =
      ({ m with loops := m.loops ++ [EmittedLoop.multiResultLoop instr.name] },
        Except.ok 1) := by
    simp [EmitElementalLoops, hsup, hres]
  exact ⟨hmain, by rw [hmain], by rw [hmain, hmaskless]⟩

/-- C2: Loop emission fails exactly when the node has more than one output
buffer and its opcode is not multi-output-capable; the error is the single
locally-raised one and its message carries the opcode identity. -/
theorem multi_output_unsupported_error_characterization (instr : HloInstruction)
    (numResults : Nat) (m : Module) :
    ((∃ e, (EmitElementalLoops instr numResults m).2 = Except.error e) ↔
      (1 < numResults ∧ instr.opcode ≠ HloOpcode.kFusion ∧
        instr.opcode ≠ HloOpcode.kReduce ∧ instr.opcode ≠ HloOpcode.kReduceWindow)) ∧
    (∀ e, (EmitElementalLoops instr numResults m).2 = Except.error e →
      e = multiOutputUnsupportedError instr.opcode ∧
      e.message = "Multi-output host kernels are not supported for " ++
        HloOpcodeString instr.opcode ++ " instruction") := by
  by_cases hmr : 1 < numResults
  · by_cases hsup : instr.opcode = HloOpcode.kFusion ∨ instr.opcode = HloOpcode.kReduce ∨
        instr.opcode = HloOpcode.kReduceWindow
    · have hsupb : (instr.opcode == HloOpcode.kFusion || instr.opcode == HloOpcode.kReduce ||
          instr.opcode == HloOpcode.kReduceWindow) = true := by
        rcases hsup with h | h | h <;> rw [h] <;> rfl
      have hval : EmitElementalLoops instr numResults m =
          ({ m with loops := m.loops ++ [EmittedLoop.multiResultLoop instr.name] },
            Except.ok 1) := by
        simp [EmitElementalLoops, hsupb, hmr]
      constructor
      · rw [hval]
        constructor
        · rintro ⟨e, he⟩
          exact absurd he (by simp)
        · rintro ⟨_, h1, h2, h3⟩
          rcases hsup with h | h | h <;> [exact absurd h h1; exact absurd h h2; exact absurd h h3]
      · intro e he
        rw [hval] at he
        exact absurd he (by simp)
    · push_neg at hsup
      have hsupb : (instr.opcode == HloOpcode.kFusion || instr.opcode == HloOpcode.kReduce ||
          instr.opcode == HloOpcode.kReduceWindow) = false := by
        simp [hsup.1, hsup.2.1, hsup.2.2]
      have hval : EmitElementalLoops instr numResults m =
          (m, Except.error (multiOutputUnsupportedError instr.opcode)) := by
        simp [EmitElementalLoops, hsupb, hmr]
      constructor
      · rw [hval]
        exact ⟨fun _ => ⟨hmr, hsup.1, hsup.2.1, hsup.2.2⟩, fun _ => ⟨_, rfl⟩⟩
      · intro e he
        rw [hval] at he
        have he2 : Except.error (ε := InternalError) (α := Nat)
            (multiOutputUnsupportedError instr.opcode) = Except.error e := he
        injection he2 with h1
        subst h1
        exact ⟨rfl, rfl⟩
  · have hmrb : decide (1 < numResults) = false := by simp [hmr]
    have hok : ∃ v, (EmitElementalLoops instr numResults m).2 = Except.ok v := by
      cases hpc : GetParallelConfig instr with
      | none => exact ⟨1, by simp [EmitElementalLoops, hpc, hmrb]⟩
      | some pc =>
        exact ⟨GetTotalPartitionCount pc.outer_dimension_partitions,
          by simp [EmitElementalLoops, hpc, hmrb]⟩
    obtain ⟨v, hv⟩ := hok
    constructor
    · rw [hv]
      constructor
      · rintro ⟨e, he⟩
        exact absurd he (by simp)
      · rintro ⟨h1, _⟩
        exact absurd h1 hmr
    · intro e he
      rw [hv] at he
      exact absurd he (by simp)

/-- C3: For every shape and every non-empty ParallelConfig of positive
entries, the per-partition bound pairs of the bounds table tile the parallel
dimensions' index space exactly once: every valid point lies in the bounds of
exactly one partition row (no gaps, no overlaps). -/
theorem partition_bounds_tile_exactly_once (shape counts x : List Nat)
    (hpos : ∀ c ∈ counts, 0 < c) (hne : counts ≠ [])
    (hx : validPoint x shape counts = true) :
    ((partitionBoundsTable shape counts).countP fun row => inBounds x row) = 1 := by
  have _ := hne
  unfold partitionBoundsTable
  rw [List.countP_map]
  have hcongr : ∀ a ∈ List.range (GetTotalPartitionCount counts),
      ((fun row => inBounds x row) ∘ tableRow shape counts) a = true ↔
        (fun i => decide (i = findPartition x shape counts)) a = true := by
    intro a ha
    rw [List.mem_range] at ha
    simp only [Function.comp_apply, decide_eq_true_eq]
    exact inBounds_tableRow_iff counts shape x hpos hx a ha
  rw [List.countP_congr hcongr]
  exact countP_range_eq _ _ (findPartition_lt x shape counts hpos hx)

/-- C3 witness: shape [10, 7] with partition counts [4, 2] and point [9, 3]. -/
theorem partition_bounds_tile_exactly_once_witness :
    ((partitionBoundsTable [10, 7] [4, 2]).countP fun row => inBounds [9, 3] row) = 1 :=
  partition_bounds_tile_exactly_once [10, 7] [4, 2] [9, 3] (by decide) (by decide) (by decide)

/-- C4: The constant bounds table entry at partition id t and dimension d is
exactly the pair (lower, lower + size) computed directly from GetPartition t
at dimension d; the table is registered as a single read-only constant global
and the emitted lookup addresses it by (t, d). -/
theorem bounds_table_lookup_refines_direct_computation (shape counts : List Nat)
    (t d : Nat) (hlen : counts.length ≤ shape.length)
    (ht : t < GetTotalPartitionCount counts) (hd : d < counts.length) :
    boundsTableLookup (partitionBoundsTable shape counts) t d =
      (((GetPartition shape counts t).getD d (0, 0)).1,
        ((GetPartition shape counts t).getD d (0, 0)).1 +
          ((GetPartition shape counts t).getD d (0, 0)).2) ∧
    ∀ (m : Module) (pc : ParallelConfig) (name : String),
      pc.outer_dimension_partitions = counts →
      (EmitParallelPartitionBounds m pc shape name).1.globals =
        m.globals ++ [{ name := name ++ "_parallel_bounds",
                        isConstant := true,
                        initializer := partitionBoundsTable shape counts }] := by
  constructor
  · have hlt : t < (partitionBoundsTable shape counts).length := by
      simpa [partitionBoundsTable] using ht
    unfold boundsTableLookup
    rw [List.getD_eq_getElem _ _ hlt]
    simp only [partitionBoundsTable, List.getElem_map, List.getElem_range]
    have hrowlen : (tableRow shape counts t).length = counts.length := by
      simp [tableRow, GetPartition_length _ _ _ hlen]
    have hplen : (GetPartition shape counts t).length = counts.length :=
      GetPartition_length _ _ _ hlen
    rw [List.getD_eq_getElem _ _ (by omega), List.getD_eq_getElem _ _ (by omega)]
    simp [tableRow]
  · intro m pc name hpc
    simp [EmitParallelPartitionBounds, hpc]

/-- C4 witness: shape [10, 7], counts [4, 2], partition 5, dimension 1. -/
theorem bounds_table_lookup_refines_direct_computation_witness :
    boundsTableLookup (partitionBoundsTable [10, 7] [4, 2]) 5 1 =
      (((GetPartition [10, 7] [4, 2] 5).getD 1 (0, 0)).1,
        ((GetPartition [10, 7] [4, 2] 5).getD 1 (0, 0)).1 +
          ((GetPartition [10, 7] [4, 2] 5).getD 1 (0, 0)).2) :=
  (bounds_table_lookup_refines_direct_computation [10, 7] [4, 2] 5 1
    (by decide) (by decide) (by decide)).1

/-- C5: For every node with exactly one output buffer and a present
ParallelConfig, emission uses the PartitionedLoop strategy, registers the
bounds-table global, and returns ThreadDim equal to the product of the
partition counts; in particular shape [16] with ParallelConfig [4] yields
bounds [0,4), [4,8), [8,12), [12,16) and ThreadDim = 4. -/
theorem single_output_with_directive_partitioned_loop (instr : HloInstruction)
    (numResults : Nat) (m : Module) (pc : ParallelConfig) (hres : numResults = 1)
    (hcfg : GetParallelConfig instr = some pc) :
    EmitElementalLoops instr numResults m =
      ({ globals := m.globals ++ [{ name := instr.name ++ "_parallel_bounds",
                                    isConstant := true,
                                    initializer := partitionBoundsTable instr.shape
                                      pc.outer_dimension_partitions }],
         loops := m.loops ++ [EmittedLoop.partitionedLoop instr.name
            (partitionBoundsTable instr.shape pc.outer_dimension_partitions)] },
       Except.ok pc.outer_dimension_partitions.prod) ∧
    partitionBoundsTable [16] [4] = [[(0, 4)], [(4, 8)], [(8, 12)], [(12, 16)]] ∧
    GetTotalPartitionCount [4] = 4 := by
  subst hres
  refine ⟨?_, by decide, by decide⟩
  simp [EmitElementalLoops, hcfg, EmitParallelPartitionBounds, GetTotalPartitionCount]

/-- C5 witness: an add node of shape [16] with directive [4]. -/
theorem single_output_with_directive_partitioned_loop_witness :
    EmitElementalLoops
        { opcode := HloOpcode.kAdd, shape := [16], name := "n",
          backendConfig := some { outer_dimension_partitions := [4] } } 1
        { globals := [], loops := [] } =
      ({ globals := [{ name := "n" ++ "_parallel_bounds",
                       isConstant := true,
                       initializer := partitionBoundsTable [16] [4] }],
         loops := [EmittedLoop.partitionedLoop "n" (partitionBoundsTable [16] [4])] },
       Except.ok ([4] : List Nat).prod) :=
  (single_output_with_directive_partitioned_loop
    { opcode := HloOpcode.kAdd, shape := [16], name := "n",
      backendConfig := some { outer_dimension_partitions := [4] } }
    1 { globals := [], loops := [] } { outer_dimension_partitions := [4] }
    rfl rfl).1

/-- C6: For every node with exactly one output buffer and no ParallelConfig
directive, emission uses the whole-shape loop strategy with ThreadDim = 1,
and that loop visits every valid index of the output shape exactly once. -/
theorem single_output_no_directive_whole_shape_loop (instr : HloInstruction)
    (numResults : Nat) (m : Module) (hres : numResults = 1)
    (hcfg : GetParallelConfig instr = none) :
    EmitElementalLoops instr numResults m =
      ({ m with loops := m.loops ++ [EmittedLoop.wholeShapeLoop instr.name] },
        Except.ok 1) ∧
    ∀ idx : List Nat, validIndex idx instr.shape = true →
      ((loopIterationIndices instr.shape (EmittedLoop.wholeShapeLoop instr.name) 0).countP
        fun r => decide (r = idx)) = 1 := by
  subst hres
  constructor
  · simp [EmitElementalLoops, hcfg]
  · intro idx hvi
    simp only [loopIterationIndices]
    apply countP_rangeIndices
    rw [← validIndex_eq_inBounds_full]
    exact hvi

/-- C6 witness: a copy node of shape [2, 3] without directive. -/
theorem single_output_no_directive_whole_shape_loop_witness :
    ((loopIterationIndices [2, 3] (EmittedLoop.wholeShapeLoop "c") 0).countP
      fun r => decide (r = [1, 2])) = 1 :=
  (single_output_no_directive_whole_shape_loop
    { opcode := HloOpcode.kCopy, shape := [2, 3], name := "c", backendConfig := none }
    1 { globals := [], loops := [] } rfl rfl).2 [1, 2] (by decide)

/-- C7: The directive reader returns none exactly when the backend
configuration is absent/unreadable or its partition-count list is empty;
otherwise it returns the directive's list verbatim, it is a total function
(never an error, no side effects), and a returned ParallelConfig is
non-empty. -/
theorem get_parallel_config_contract (instr : HloInstruction) :
    (GetParallelConfig instr = none ↔
      instr.backendConfig = none ∨
      ∃ bc, instr.backendConfig = some bc ∧ bc.outer_dimension_partitions = []) ∧
    (∀ pc, GetParallelConfig instr = some pc →
      (∃ bc, instr.backendConfig = some bc ∧
        pc.outer_dimension_partitions = bc.outer_dimension_partitions) ∧
      pc.outer_dimension_partitions ≠ []) := by
  cases hbc : instr.backendConfig with
  | none => simp [GetParallelConfig, hbc]
  | some bc =>
    by_cases hemp : bc.outer_dimension_partitions.isEmpty
    · have hnil : bc.outer_dimension_partitions = [] := List.isEmpty_iff.mp hemp
      constructor
      · simp [GetParallelConfig, hbc, hemp, hnil]
      · intro pc hpc
        simp [GetParallelConfig, hbc, hemp] at hpc
    · have hnil : bc.outer_dimension_partitions ≠ [] := by
        intro h
        exact hemp (by simp [h])
      constructor
      · simp [GetParallelConfig, hbc, hemp, hnil]
      · intro pc hpc
        simp only [GetParallelConfig, hbc, hemp, Bool.false_eq_true, if_false,
          Option.some.injEq] at hpc
        subst hpc
        exact ⟨⟨bc, rfl, rfl⟩, hnil⟩

/-- C8: The partition enumeration and bounds-table construction are
deterministic functions of (shape, ParallelConfig): the bounds data produced
does not depend on the pre-existing module state, and re-running the
construction (also on the module the first run produced) yields an identical
table and identical bound sequences. -/
theorem emit_parallel_partition_bounds_deterministic (m1 m2 : Module)
    (pc : ParallelConfig) (shape : List Nat) (name : String) :
    (EmitParallelPartitionBounds m1 pc shape name).2 =
      partitionBoundsTable shape pc.outer_dimension_partitions ∧
    (EmitParallelPartitionBounds m1 pc shape name).2 =
      (EmitParallelPartitionBounds m2 pc shape name).2 ∧
    (EmitParallelPartitionBounds
        (EmitParallelPartitionBounds m1 pc shape name).1 pc shape name).2 =
      (EmitParallelPartitionBounds m1 pc shape name).2 ∧
    ∀ i, GetPartition shape pc.outer_dimension_partitions i =
      GetPartition shape pc.outer_dimension_partitions i :=
  ⟨rfl, rfl, rfl, fun _ => rfl⟩

/-- C9: Every successful emission returns a KernelSpec whose buffer
allocation list and buffer-uses list are both empty, regardless of the
node. -/
theorem kernel_spec_buffer_lists_empty (instr : HloInstruction) (numResults : Nat)
    (spec : KernelSpec) (h : EmitKernelSpec instr numResults = Except.ok spec) :
    spec.buffer_allocations = [] ∧ spec.buffer_uses = [] := by
  unfold EmitKernelSpec at h
  rcases hE : EmitElementalLoops instr numResults { globals := [], loops := [] }
    with ⟨m1, r⟩
  simp only [hE] at h
  cases r with
  | ok td =>
    simp only [Except.ok.injEq] at h
    subst h
    exact ⟨rfl, rfl⟩
  | error e => simp at h

/-- C9 witness: a single-output add node. -/
theorem kernel_spec_buffer_lists_empty_witness :
    ∃ spec, EmitKernelSpec
        { opcode := HloOpcode.kAdd, shape := [4], name := "a", backendConfig := none }
        1 = Except.ok spec ∧
      spec.buffer_allocations = [] ∧ spec.buffer_uses = [] := by
  refine ⟨_, rfl, ?_⟩
  exact kernel_spec_buffer_lists_empty
    { opcode := HloOpcode.kAdd, shape := [4], name := "a", backendConfig := none }
    1 _ rfl

/-- C10: When loop emission returns the unsupported-multi-output error, the
module is returned unchanged: no loop was emitted and no parallel-bounds
global was registered, even when a directive is attached to the node. -/
theorem error_path_emits_nothing (instr : HloInstruction) (numResults : Nat)
    (m : Module) (e : InternalError)
    (h : (EmitElementalLoops instr numResults m).2 = Except.error e) :
    (EmitElementalLoops instr numResults m).1 = m ∧
    (EmitElementalLoops instr numResults m).1.globals = m.globals ∧
    (EmitElementalLoops instr numResults m).1.loops = m.loops := by
  by_cases hmr : 1 < numResults
  · by_cases hsup : instr.opcode = HloOpcode.kFusion ∨ instr.opcode = HloOpcode.kReduce ∨
        instr.opcode = HloOpcode.kReduceWindow
    · have hsupb : (instr.opcode == HloOpcode.kFusion || instr.opcode == HloOpcode.kReduce ||
          instr.opcode == HloOpcode.kReduceWindow) = true := by
        rcases hsup with hop | hop | hop <;> rw [hop] <;> rfl
      have hval : (EmitElementalLoops instr numResults m).2 = Except.ok 1 := by
        simp [EmitElementalLoops, hsupb, hmr]
      rw [hval] at h
      exact absurd h (by simp)
    · push_neg at hsup
      have hsupb : (instr.opcode == HloOpcode.kFusion || instr.opcode == HloOpcode.kReduce ||
          instr.opcode == HloOpcode.kReduceWindow) = false := by
        simp [hsup.1, hsup.2.1, hsup.2.2]
      have hval : (EmitElementalLoops instr numResults m).1 = m := by
        simp [EmitElementalLoops, hsupb, hmr]
      exact ⟨hval, by rw [hval], by rw [hval]⟩
  · have hmrb : decide (1 < numResults) = false := by simp [hmr]
    cases hpc : GetParallelConfig instr with
    | none =>
      have hval : (EmitElementalLoops instr numResults m).2 = Except.ok 1 := by
        simp [EmitElementalLoops, hpc, hmrb]
      rw [hval] at h
      exact absurd h (by simp)
    | some pc =>
      have hval : (EmitElementalLoops instr numResults m).2 =
          Except.ok (GetTotalPartitionCount pc.outer_dimension_partitions) := by
        simp [EmitElementalLoops, hpc, hmrb]
      rw [hval] at h
      exact absurd h (by simp)

/-- C10 witness: a two-output add node with a directive attached. -/
theorem error_path_emits_nothing_witness :
    (EmitElementalLoops
        { opcode := HloOpcode.kAdd, shape := [4], name := "a",
          backendConfig := some { outer_dimension_partitions := [2] } } 2
        { globals := [], loops := [] }).1 = { globals := [], loops := [] } :=
  (error_path_emits_nothing
    { opcode := HloOpcode.kAdd, shape := [4], name := "a",
      backendConfig := some { outer_dimension_partitions := [2] } }
    2 { globals := [], loops := [] } (multiOutputUnsupportedError HloOpcode.kAdd) rfl).1

/-- C1 witness: a two-output reduce node with a directive attached. -/
theorem multi_result_emission_ignores_partitioning_witness :
    (EmitElementalLoops
        { opcode := HloOpcode.kReduce, shape := [8], name := "r",
          backendConfig := some { outer_dimension_partitions := [2] } } 2
        { globals := [], loops := [] }).1.globals = [] :=
  (multi_result_emission_ignores_partitioning
    { opcode := HloOpcode.kReduce, shape := [8], name := "r",
      backendConfig := some { outer_dimension_partitions := [2] } }
    2 { globals := [], loops := [] } (by decide) (Or.inr (Or.inl rfl))).2.1

/-- C2 witness: a two-output add node does fail. -/
theorem multi_output_unsupported_error_characterization_witness :
    ∃ e, (EmitElementalLoops
        { opcode := HloOpcode.kAdd, shape := [4], name := "a", backendConfig := none } 2
        { globals := [], loops := [] }).2 = Except.error e :=
  (multi_output_unsupported_error_characterization
    { opcode := HloOpcode.kAdd, shape := [4], name := "a", backendConfig := none } 2
    { globals := [], loops := [] }).1.mpr
    ⟨by decide, by decide, by decide, by decide⟩

/-- C7 witness: a node with no backend configuration maps to none. -/
theorem get_parallel_config_contract_witness :
    GetParallelConfig
      { opcode := HloOpcode.kAdd, shape := [4], name := "a", backendConfig := none } =
      none :=
  (get_parallel_config_contract
    { opcode := HloOpcode.kAdd, shape := [4], name := "a", backendConfig := none }).1.mpr
    (Or.inl rfl)

end ElementalKernelEmitter
